import Mathlib

/-!
Verification of the ADDE (agent-driven docker executor) toolkit against its
natural-language specification.  The Go source is shallowly embedded: pure
helpers become Lean functions on `String` / `List Char`, and the effectful
operations (`ExecuteCodeBlock`, `CreateRuntimeEnv`, `runExec`) become trace
builders parameterised by a behaviour oracle that says which daemon call
succeeds, mirroring the early-return structure of the Go code.
-/

/-! ## CLI dispatch (go/cmd/adde/main.go) -/

/-- Outcome of the CLI tool-name dispatch in `main`: either an executor
operation is dispatched, or the default branch prints "unknown tool" and
exits with code 2. -/
inductive CliOutcome where
  | dispatched (op : String)
  | unknownTool
deriving DecidableEq, Repr

/-- Embedding of the two switch statements of `main` in
`go/cmd/adde/main.go`: the first switch handles `prepare_build_context`
(no daemon client needed); the second switch handles the remaining tools;
every other tool name falls to the `default:` branch (exit code 2). -/
def dispatchTool (tool : String) : CliOutcome :=
  if tool = "prepare_build_context" then .dispatched "PrepareBuildContext"
  else if tool = "pull_image" then .dispatched "PullImage"
  else if tool = "create_runtime_env" then .dispatched "CreateRuntimeEnv"
  else if tool = "execute_code_block" then .dispatched "ExecuteCodeBlock"
  else if tool = "get_container_logs" then .dispatched "GetContainerLogs"
  else if tool = "cleanup_env" then .dispatched "CleanupEnv"
  else if tool = "build_image_from_context" then .dispatched "BuildImageFromContext"
  else if tool = "list_agent_images" then .dispatched "ListAgentImages"
  else if tool = "prune_build_cache" then .dispatched "PruneBuildCache"
  else .unknownTool

/-! ## Tar stream builder (pkg/executor/execute.go, buildTarStream) -/

/-- One tar entry as written by `buildTarStream`: header
with Name the filename, Mode 0644 and Size int64(len(content)), followed by the
content bytes.  The payload is kept as the source string; `size` is the
UTF-8 byte length, matching Go's `len` on a string. -/
structure TarEntry where
  name : String
  mode : Nat
  size : Nat
  data : String
deriving DecidableEq, Repr

/-- Embedding of `buildTarStream(filename, content)`: a single-entry tar
with the given name, mode 0644 and size `len(content)`. -/
def buildTarStream (filename content : String) : List TarEntry :=
  [{ name := filename, mode := 0o644, size := content.utf8ByteSize, data := content }]

/-- Constant `WorkspacePathInsideContainer` from the executor constants. -/
def WorkspacePathInsideContainer : String := "/workspace"

/-- Parameters of `execute_code_block` (types.go, `ExecuteCodeBlockParams`). -/
structure ExecuteCodeBlockParams where
  containerID : String
  filename : String
  codeContent : String
  timeoutSec : Int
deriving Repr

/-- The put-archive step of `ExecuteCodeBlock`: the tar built from the
payload is copied into `/workspace` of the target container
(`cli.CopyToContainer(ctx, p.ContainerID, WorkspacePathInsideContainer, tarBuf, ...)`). -/
def executePutArchive (p : ExecuteCodeBlockParams) : String × List TarEntry :=
  (WorkspacePathInsideContainer, buildTarStream p.filename p.codeContent)

/-- Modelled from the spec: the "base name" of a path, following Go's
`path.Base` semantics (everything after the final slash; trailing slashes
removed first; empty path gives "."; all-slash path gives "/").  The spec
says the tar entry carries the file's base name; the repository's
`ExecuteCodeBlock` never computes a base name, so this definition exists
only to compare the spec's words with the code. -/
def specPathBase (s : String) : String :=
  if s = "" then "."
  else
    let t := (s.data.reverse.dropWhile (fun c => c = '/')).reverse
    if t = [] then "/"
    else String.mk ((t.reverse.takeWhile (fun c => c ≠ '/')).reverse)

/-! ## Runner command selection (pkg/executor/execute.go, runCommandForFile) -/

/-- Embedding of Go `path.Ext`: scan the reversed character list; stop
with the empty extension at a slash, return from the first dot found. -/
def extFromRev : List Char → List Char → List Char
  | [], _ => []
  | c :: t, acc =>
    if c = '/' then []
    else if c = '.' then '.' :: acc
    else extFromRev t (c :: acc)

/-- Go `path.Ext(filename)`: the suffix beginning at the final dot in the
final slash-separated element, or empty. -/
def pathExt (s : String) : String :=
  String.mk (extFromRev s.data.reverse [])

/-- Go `strings.ToLower` restricted to per-character lowering (all inputs
relevant here are ASCII). -/
def toLowerStr (s : String) : String :=
  String.mk (s.data.map Char.toLower)

/-- Embedding of `runCommandForFile(fullPath, filename)`: choose the
runner from the lower-cased extension of the file name. -/
def runCommandForFile (fullPath filename : String) : List String :=
  let base := toLowerStr (pathExt filename)
  if base = ".py" then ["python", fullPath]
  else if base = ".js" then ["node", fullPath]
  else if base = ".mjs" then ["node", fullPath]
  else if base = ".ts" then ["npx", "--yes", "ts-node", fullPath]
  else if base = ".sh" then ["sh", fullPath]
  else ["sh", "-c", fullPath]

/-! ## Dockerfile forbidden patterns (unnamed part containing BuildImageFromContext)

The four Go patterns are simple enough to embed exactly: literals,
one-or-more / zero-or-more over a character class.  Matching is RE2-style
leftmost-anywhere: a pattern matches a string when some substring matches.
Case-insensitivity `(?i)` is embedded by lowering the subject (patterns
are written over lower-cased text, exactly as case folding acts on these
ASCII-only patterns). -/

/-- Items of the tiny regex language needed by the four patterns. -/
inductive RItem where
  | lit (c : Char)
  | once (p : Char → Bool)
  | star (p : Char → Bool)

/-- Match `star p` followed by continuation `k`, trying every split. -/
def matchStar (p : Char → Bool) (k : List Char → Bool) : List Char → Bool
  | [] => k []
  | c :: s => k (c :: s) || (p c && matchStar p k s)

/-- Anchored match of an item sequence against a prefix of the string
(the rest of the string may be anything, matching RE2 unanchored search
once combined with `rfind`). -/
def matchItems : List RItem → List Char → Bool
  | [], _ => true
  | (.lit c) :: rest, s =>
    match s with
    | [] => false
    | d :: s1 => d = c && matchItems rest s1
  | (.once p) :: rest, s =>
    match s with
    | [] => false
    | d :: s1 => p d && matchItems rest s1
  | (.star p) :: rest, s => matchStar p (matchItems rest) s

/-- Unanchored search: the pattern matches at some position. -/
def rfind (its : List RItem) : List Char → Bool
  | [] => matchItems its []
  | c :: s => matchItems its (c :: s) || rfind its s

/-- Go RE2 `\s`: exactly tab, newline, form feed, carriage return, space. -/
def goSpace (c : Char) : Bool :=
  c = ' ' || c = '\t' || c = '\n' || c = '\x0c' || c = '\r'

/-- A literal string as a pattern fragment. -/
def litStr (s : String) : List RItem :=
  s.data.map RItem.lit

/-- Pattern 1 as compiled by the code: `(?i)/var/run/docker\.sock`. -/
def codePattern1 : List RItem := litStr "/var/run/docker.sock"

/-- Pattern 2 as compiled by the code: the raw-string literal holds
`-v\s+[^\\s]*docker\.sock`, so the character class is "neither a
backslash nor the letter s" (the `\\` inside `[...]` is an escaped
backslash), not "non-whitespace". -/
def codePattern2 : List RItem :=
  litStr "-v" ++ [.once goSpace, .star goSpace] ++
    [.star (fun c => !(c = '\\' || c = 's'))] ++ litStr "docker.sock"

/-- Pattern 3 as compiled by the code: the raw-string literal holds
`--mount[^\\n]*docker\.sock`, so the class is "neither a backslash nor
the letter n", not "anything but a newline". -/
def codePattern3 : List RItem :=
  litStr "--mount" ++ [.star (fun c => !(c = '\\' || c = 'n'))] ++ litStr "docker.sock"

/-- Pattern 4 as compiled by the code: `(?i)privileged\s*true`. -/
def codePattern4 : List RItem :=
  litStr "privileged" ++ [.star goSpace] ++ litStr "true"

/-- Variable `forbiddenDockerfilePatterns` from the source, as compiled regexes. -/
def forbiddenDockerfilePatterns : List (List RItem) :=
  [codePattern1, codePattern2, codePattern3, codePattern4]

/-- Embedding of `validateDockerfile(content)`: `true` means the content
passes (Go returns `nil`), `false` means a forbidden pattern matched and
the generic security error is returned before any daemon build call. -/
def validateDockerfile (content : String) : Bool :=
  !(forbiddenDockerfilePatterns.any (fun pat => rfind pat (content.data.map Char.toLower)))

/-- Modelled from the spec: pattern 2 as the spec writes it,
`-v\s+[^\s]*docker.sock`, with a genuine non-whitespace class. -/
def specPattern2 : List RItem :=
  litStr "-v" ++ [.once goSpace, .star goSpace] ++
    [.star (fun c => !goSpace c)] ++ litStr "docker.sock"

/-- Modelled from the spec: pattern 3 as the spec writes it,
`--mount[^\n]*docker.sock`, with a genuine non-newline class. -/
def specPattern3 : List RItem :=
  litStr "--mount" ++ [.star (fun c => !(c = '\n'))] ++ litStr "docker.sock"

/-- Modelled from the spec: the spec's four forbidden patterns. -/
def specForbiddenPatterns : List (List RItem) :=
  [codePattern1, specPattern2, specPattern3, codePattern4]

/-- Modelled from the spec: `true` when the content matches at least one
of the spec's four case-insensitive regexes, i.e. the spec demands the
Dockerfile be rejected. -/
def specForbidden (content : String) : Bool :=
  specForbiddenPatterns.any (fun pat => rfind pat (content.data.map Char.toLower))

/-! ## Daemon-call traces of ExecuteCodeBlock / runExec (execute.go, exec.go)

The Go functions are straight-line sequences of daemon calls with early
returns on error.  They are embedded as trace builders over a behaviour
oracle recording which call succeeds; the trace lists the daemon calls
that were issued, in order. -/

/-- One daemon call made by the execute path. -/
inductive DaemonEv where
  | copyArchive
  | execCreate
  | execAttach
  | execStart
  | streamRead
  | execInspect
  | persistLog
deriving DecidableEq, Repr

/-- Which of the calls in the execute path succeed. -/
structure ExecBehavior where
  tarOk : Bool
  copyOk : Bool
  createOk : Bool
  attachOk : Bool
  startOk : Bool
  streamOk : Bool
  inspectOk : Bool
deriving DecidableEq, Repr

/-- Embedding of `runExec` (exec.go): exec-create, attach, start, stream
demultiplex, inspect, each returning early on failure.  Result: the calls
issued, and whether the function returned with `err == nil` (so the exit
code is known). -/
def runExecTrace (b : ExecBehavior) : List DaemonEv × Bool :=
  if !b.createOk then ([.execCreate], false)
  else if !b.attachOk then ([.execCreate, .execAttach], false)
  else if !b.startOk then ([.execCreate, .execAttach, .execStart], false)
  else if !b.streamOk then ([.execCreate, .execAttach, .execStart, .streamRead], false)
  else ([.execCreate, .execAttach, .execStart, .streamRead, .execInspect], b.inspectOk)

/-- Embedding of `ExecuteCodeBlock` (execute.go): build the tar, copy it
to the container, run the exec, and persist the last-run log only when
`runExec` returned without error.  Result: calls issued, and whether the
operation succeeded (no `Error` field in the result). -/
def executeCodeBlockTrace (b : ExecBehavior) : List DaemonEv × Bool :=
  if !b.tarOk then ([], false)
  else if !b.copyOk then ([.copyArchive], false)
  else if (runExecTrace b).2 then
    (.copyArchive :: (runExecTrace b).1 ++ [.persistLog], true)
  else (.copyArchive :: (runExecTrace b).1, false)

/-- Constant `lastRunPath` (execute.go): the name of the last-run log
file inside `/workspace`. -/
def lastRunPath : String := ".adde_last_run.json"

/-- Effect of one daemon call on the container's last-run log file
`/workspace/.adde_last_run.json`.  The put-archive of the source
(`CopyToContainer` into `/workspace`) extracts the single tar entry named
`filename`, so it overwrites the log file exactly when the caller-supplied
filename is the log file's own name, leaving it untouched otherwise (a
failed copy may already have extracted the entry; the spec treats partial
put-archive writes as irreversible).  The persist call rewrites the log
with the new entry.  No other daemon call of the execute path touches the
workspace. -/
def applyEvent (filename content newLog : String) (st : Option String)
    (e : DaemonEv) : Option String :=
  match e with
  | .copyArchive => if filename = lastRunPath then some content else st
  | .persistLog => some newLog
  | _ => st

/-- State of the last-run log file after a trace of daemon calls from an
execute_code_block invocation with the given filename and code content. -/
def lastRunAfter (evs : List DaemonEv) (filename content : String)
    (prev : Option String) (newLog : String) : Option String :=
  evs.foldl (applyEvent filename content newLog) prev

/-- Event `a` completes before event `b` in a trace: whenever `b` was
issued, `a` was issued at an earlier position. -/
abbrev evBefore (t : List DaemonEv) (a b : DaemonEv) : Prop :=
  b ∈ t → a ∈ t ∧ t.indexOf a < t.indexOf b

/-! ## create_runtime_env (unnamed part with CreateRuntimeEnv; types.go; constants) -/

/-- Constant `DefaultMemoryLimitBytes` (512 MiB). -/
def DefaultMemoryLimitBytes : Nat := 512 * 1024 * 1024

/-- Constant `DefaultNanoCPUs` (0.5 CPU). -/
def DefaultNanoCPUs : Nat := 500000000

/-- Parameters of `create_runtime_env` (types.go, `CreateRuntimeEnvParams`).
The environment and port maps are carried as association lists. -/
structure CreateRuntimeEnvParams where
  image : String
  dependencies : List String
  envVars : List (String × String)
  network : Bool
  portBindings : List (String × String)
  useImageCmd : Bool
deriving Repr

/-- Go `unicode.IsSpace` on the characters the executor can meet in tags
and ports: ASCII whitespace plus NEL and NBSP. -/
def isGoTrimSpace (c : Char) : Bool :=
  c = ' ' || c = '\t' || c = '\n' || c = '\x0b' || c = '\x0c' || c = '\r' ||
    c.toNat = 0x85 || c.toNat = 0xa0

/-- Left half of Go `strings.TrimSpace` on character lists. -/
def trimLeftChars (s : List Char) : List Char :=
  s.dropWhile isGoTrimSpace

/-- Right half of Go `strings.TrimSpace` on character lists. -/
def trimRightChars (s : List Char) : List Char :=
  (s.reverse.dropWhile isGoTrimSpace).reverse

/-- Go `strings.TrimSpace` on character lists. -/
def trimSpace (s : List Char) : List Char :=
  trimRightChars (trimLeftChars s)

/-- Go `strings.TrimSpace` on strings. -/
def trimStr (s : String) : String :=
  String.mk (trimSpace s.data)

/-- Whether Go `strconv.Atoi` accepts the string: an optional sign
followed by at least one decimal digit (64-bit overflow is not modelled;
host ports are far below it). -/
def isGoInt (s : String) : Bool :=
  let ds := if s.data.head? = some '+' || s.data.head? = some '-' then s.data.tail else s.data
  !ds.isEmpty && ds.all Char.isDigit

/-- The container creation request composed by `CreateRuntimeEnv`:
container config (image, env, command, working dir, exposed ports) and
host config (binds, network mode, resources, port bindings). -/
structure ContainerSpec where
  image : String
  env : List String
  cmd : Option (List String)
  workingDir : Option String
  binds : List String
  networkMode : String
  memory : Nat
  nanoCPUs : Nat
  autoRemove : Bool
  exposedPorts : List String
  portMap : List (String × String × String)
deriving Repr

/-- One entry of the port-binding loop: trim both sides, drop empty or
non-numeric host ports, append "/tcp" when the container port names no
protocol, bind on loopback. -/
def portEntry (q : String × String) : Option (String × String × String) :=
  let cPort := trimStr q.1
  let hPort := trimStr q.2
  if cPort = "" || hPort = "" then none
  else if !isGoInt hPort then none
  else
    let portKey := if (cPort.data.contains '/') then cPort else cPort ++ "/tcp"
    some (portKey, "127.0.0.1", hPort)

/-- Embedding of the config/host-config composition in `CreateRuntimeEnv`
(the version with port bindings and `use_image_cmd`, matching types.go):
given the absolute workspace path returned by `filepath.Abs`. -/
def containerSpecOf (p : CreateRuntimeEnvParams) (ws : String) : ContainerSpec :=
  let ports := p.portBindings.filterMap portEntry
  { image := p.image
    env := p.envVars.map (fun kv => kv.1 ++ "=" ++ kv.2)
    cmd := if p.useImageCmd then none else some ["sleep", "86400"]
    workingDir := if p.useImageCmd then none else some WorkspacePathInsideContainer
    binds := [ws ++ ":" ++ WorkspacePathInsideContainer]
    networkMode := if p.network then "default" else "none"
    memory := DefaultMemoryLimitBytes
    nanoCPUs := DefaultNanoCPUs
    autoRemove := false
    exposedPorts := ports.map (fun e => e.1)
    portMap := ports }

/-- Whether the image reference names a Python image
(`strings.Contains(strings.ToLower(s), "python")`). -/
def isPythonImage (s : String) : Bool :=
  rfind (litStr "python") (toLowerStr s).data

/-- Whether the image reference names a Node image. -/
def isNodeImage (s : String) : Bool :=
  rfind (litStr "node") (toLowerStr s).data

/-- The install command chosen by `runDependencyInstall` for a non-empty
dependency list. -/
def dependencyInstallCmd (image : String) (deps : List String) : List String :=
  if isPythonImage image then ["pip", "install", "--no-cache-dir", "-q"] ++ deps
  else if isNodeImage image then ["npm", "install", "-g"] ++ deps
  else ["sh", "-c",
    "command -v pip >/dev/null 2>&1 && pip install --no-cache-dir -q " ++
      String.intercalate " " deps ++ " || true"]

/-- One daemon call made by `CreateRuntimeEnv`. -/
inductive CreateEv where
  | containerCreate (spec : ContainerSpec)
  | containerStart
  | installExec (cmd : List String) (timeoutSec : Nat)
  | removeForce
deriving Repr

/-- Which of the calls in the create path succeed. -/
structure CreateBehavior where
  mkdirOk : Bool
  createOk : Bool
  startOk : Bool
  installOk : Bool
deriving DecidableEq, Repr

/-- Result of `create_runtime_env` (types.go): container id and workspace
on success, or an error. -/
structure CreateRuntimeEnvResult where
  containerId : Option String
  workspace : Option String
  isError : Bool
deriving DecidableEq, Repr

/-- Embedding of `CreateRuntimeEnv`: make the workspace temp dir, compose
the container spec, create and start the container (force-removing it if
start fails), install dependencies via `runExec` with a 120-second
timeout when the list is non-empty (force-removing on failure), and
return the container id and workspace.  Here `ws` stands for the absolute path
from `filepath.Abs(os.MkdirTemp(...))` and `cid` for the daemon-assigned
container id. -/
def createRuntimeEnvRun (p : CreateRuntimeEnvParams) (ws cid : String)
    (b : CreateBehavior) : List CreateEv × CreateRuntimeEnvResult :=
  if !b.mkdirOk then ([], ⟨none, none, true⟩)
  else
    let spec := containerSpecOf p ws
    if !b.createOk then ([.containerCreate spec], ⟨none, none, true⟩)
    else if !b.startOk then
      ([.containerCreate spec, .containerStart, .removeForce], ⟨none, none, true⟩)
    else if p.dependencies.isEmpty then
      ([.containerCreate spec, .containerStart], ⟨some cid, some ws, false⟩)
    else if !b.installOk then
      ([.containerCreate spec, .containerStart,
        .installExec (dependencyInstallCmd p.image p.dependencies) 120, .removeForce],
       ⟨none, none, true⟩)
    else
      ([.containerCreate spec, .containerStart,
        .installExec (dependencyInstallCmd p.image p.dependencies) 120],
       ⟨some cid, some ws, false⟩)

/-- A Unix-style absolute path, the form `filepath.Abs` returns on the
target hosts. -/
def isAbsPath (s : String) : Bool :=
  s.data.head? = some '/'

/-! ## Tag normalization in BuildImageFromContext -/

/-- The `agent-env:` tag marker (`AgentImageTagPrefix`), as characters. -/
def agentEnvPrefixChars : List Char := "agent-env:".data

/-- The decimal digit characters of `fmt.Sprintf("%d", n)`, least
significant digit chosen by `n % 10`. -/
def digitChar (n : Nat) : Char :=
  if n = 0 then '0' else if n = 1 then '1' else if n = 2 then '2'
  else if n = 3 then '3' else if n = 4 then '4' else if n = 5 then '5'
  else if n = 6 then '6' else if n = 7 then '7' else if n = 8 then '8' else '9'

/-- Fuel-driven decimal rendering (the fuel only bounds recursion depth;
`natChars` always supplies enough). -/
def digitsAux : Nat → Nat → List Char
  | 0, _ => []
  | fuel + 1, n =>
    if n < 10 then [digitChar n]
    else digitsAux fuel (n / 10) ++ [digitChar (n % 10)]

/-- Decimal rendering of a natural number, as `fmt.Sprintf("%d", n)`. -/
def natChars (n : Nat) : List Char :=
  digitsAux (n + 1) n

/-- Step two of the tag resolution: when the trimmed tag is empty,
synthesize `agent-env:build-<unix-seconds>`. -/
def synthIfEmpty (t : List Char) (nowUnix : Nat) : List Char :=
  if t = [] then "agent-env:build-".data ++ natChars nowUnix else t

/-- Step three of the tag resolution: prepend `agent-env:` when the tag
does not already start with it (`strings.HasPrefix`). -/
def enforceTagConvention (t : List Char) : List Char :=
  if agentEnvPrefixChars.isPrefixOf t then t else agentEnvPrefixChars ++ t

/-- Embedding of the tag-resolution block of `BuildImageFromContext`:
trim the input tag; when empty, synthesize `agent-env:build-<unix>`;
prepend `agent-env:` when the marker is missing. -/
def resolveBuildTag (tag : List Char) (nowUnix : Nat) : List Char :=
  enforceTagConvention (synthIfEmpty (trimSpace tag) nowUnix)

/-! ## Tail trimming in get_container_logs (pull.go) -/

/-- Go `strings.Split(s, "\n")` on character lists: `splitNl` never returns
`[]` and its pieces contain no newline. -/
def splitNl : List Char → List (List Char)
  | [] => [[]]
  | c :: s =>
    match splitNl s with
    | [] => [[c]]
    | h :: t => if c = '\n' then [] :: h :: t else (c :: h) :: t

/-- Go `strings.Join(xs, "\n")` on character lists. -/
def joinNl (xs : List (List Char)) : List Char :=
  (xs.intersperse ['\n']).flatten

/-- Embedding of `tailLines(s, n)` (pull.go): split on newline, return
unchanged when there are at most `n` lines, otherwise join the last `n`
(the slice from index `len - n`). -/
def tailLines (s : List Char) (n : Nat) : List Char :=
  if (splitNl s).length ≤ n then s
  else joinNl ((splitNl s).drop ((splitNl s).length - n))

/-- The structured last-run log (types.go, `LogEntry`). -/
structure LogEntry where
  exitCode : Int
  stdout : List Char
  stderr : List Char
  executionTime : String
deriving DecidableEq, Repr

/-- The tail-trimming step of `GetContainerLogs`: only a positive
`tail_lines` trims stdout and stderr. -/
def trimLogs (log : LogEntry) (tailN : Int) : LogEntry :=
  if tailN > 0 then
    { log with stdout := tailLines log.stdout tailN.toNat,
               stderr := tailLines log.stderr tailN.toNat }
  else log

/-! ## Helper lemmas -/

/-- A list whose head fails the predicate is unchanged by `dropWhile`. -/
theorem adde_dropWhile_eq_self (p : Char → Bool) (l : List Char)
    (h : ∀ c, l.head? = some c → p c = false) : l.dropWhile p = l := by
  cases l with
  | nil => rfl
  | cons a t =>
    have ha : p a = false := h a rfl
    simp [List.dropWhile_cons, ha]

/-- The head of a `dropWhile` result fails the predicate. -/
theorem adde_head_dropWhile (p : Char → Bool) (l : List Char) :
    ∀ c, (l.dropWhile p).head? = some c → p c = false := by
  induction l with
  | nil => intro c h; simp [List.dropWhile] at h
  | cons a t ih =>
    intro c h
    rw [List.dropWhile_cons] at h
    by_cases ha : p a
    · rw [if_pos ha] at h; exact ih c h
    · rw [if_neg ha] at h
      simp only [List.head?] at h
      cases h
      simpa using ha

/-- Applying `dropWhile` removes an initial segment. -/
theorem adde_dropWhile_suffix (p : Char → Bool) (l : List Char) :
    ∃ t, l = t ++ l.dropWhile p := by
  induction l with
  | nil => exact ⟨[], rfl⟩
  | cons a t ih =>
    by_cases ha : p a
    · obtain ⟨u, hu⟩ := ih
      refine ⟨a :: u, ?_⟩
      rw [List.dropWhile_cons, if_pos ha]
      simpa using hu
    · exact ⟨[], by rw [List.dropWhile_cons, if_neg ha]; rfl⟩

/-- Applying `dropWhile` twice equals applying it once. -/
theorem adde_dropWhile_idem (p : Char → Bool) (l : List Char) :
    (l.dropWhile p).dropWhile p = l.dropWhile p :=
  adde_dropWhile_eq_self p _ (adde_head_dropWhile p l)

/-- A list all of whose elements satisfy the predicate is unchanged by
`takeWhile`. -/
theorem adde_takeWhile_eq_self (p : Char → Bool) (l : List Char)
    (h : ∀ c ∈ l, p c = true) : l.takeWhile p = l := by
  induction l with
  | nil => rfl
  | cons a t ih =>
    rw [List.takeWhile_cons, if_pos (h a (List.mem_cons_self a t))]
    rw [ih fun c hc => h c (List.mem_cons_of_mem a hc)]

/-- Head of a non-empty left factor survives an append. -/
theorem adde_head_append (u v : List Char) (hu : u ≠ []) :
    (u ++ v).head? = u.head? := by
  cases u with
  | nil => exact absurd rfl hu
  | cons a t => rfl

/-- A head element is a member. -/
theorem adde_mem_of_head (l : List Char) (c : Char) (h : l.head? = some c) :
    c ∈ l := by
  cases l with
  | nil => simp at h
  | cons a t =>
    have hac : a = c := by simpa using h
    rw [← hac]
    exact List.mem_cons_self _ _

/-- Test `isPrefixOf` holds on an append with itself on the left. -/
theorem adde_isPrefixOf_append (u v : List Char) : u.isPrefixOf (u ++ v) = true := by
  simp [ List.isPrefixOf_iff_prefix]

/-! ## Claim theorems -/

/-- Claim C1: the spec lists eleven recognized tools, but the CLI switch
in main.go dispatches only nine of them; the documented tool names
build_image_from_path and delete_image fall through to the default
branch, which reports an unknown tool and exits with code 2. -/
theorem dispatchTool_missing_two_tools :
    dispatchTool "build_image_from_path" = CliOutcome.unknownTool ∧
    dispatchTool "delete_image" = CliOutcome.unknownTool ∧
    dispatchTool "pull_image" = CliOutcome.dispatched "PullImage" ∧
    dispatchTool "create_runtime_env" = CliOutcome.dispatched "CreateRuntimeEnv" ∧
    dispatchTool "execute_code_block" = CliOutcome.dispatched "ExecuteCodeBlock" ∧
    dispatchTool "get_container_logs" = CliOutcome.dispatched "GetContainerLogs" ∧
    dispatchTool "cleanup_env" = CliOutcome.dispatched "CleanupEnv" ∧
    dispatchTool "prepare_build_context" = CliOutcome.dispatched "PrepareBuildContext" ∧
    dispatchTool "build_image_from_context" = CliOutcome.dispatched "BuildImageFromContext" ∧
    dispatchTool "list_agent_images" = CliOutcome.dispatched "ListAgentImages" ∧
    dispatchTool "prune_build_cache" = CliOutcome.dispatched "PruneBuildCache" := by
  decide

/-- Claim C2: the second compiled pattern is not the spec's
non-whitespace class: its raw-string source doubles the backslash, so the
class excludes a backslash and the letter s instead.  The Dockerfile line
"-v /sys/docker.sock" matches the spec's second regex (so the spec
demands rejection) yet matches none of the code's four patterns, and
validateDockerfile lets it pass to the daemon build. -/
theorem validateDockerfile_misses_spec_pattern :
    validateDockerfile "-v /sys/docker.sock" = true ∧
    specForbidden "-v /sys/docker.sock" = true ∧
    rfind specPattern2 ("-v /sys/docker.sock".data.map Char.toLower) = true ∧
    rfind codePattern2 ("-v /sys/docker.sock".data.map Char.toLower) = false := by
  decide

/-- Claim C3, counterexample: for the filename "sub/t.py" the tar entry
written by buildTarStream carries the filename verbatim, which differs
from the base name "t.py" the claim promises. -/
theorem buildTarStream_name_not_base_name :
    (executePutArchive ⟨"c1", "sub/t.py", "print(42)", 0⟩).2.map TarEntry.name ≠
      [specPathBase "sub/t.py"] ∧
    specPathBase "sub/t.py" = "t.py" ∧
    (executePutArchive ⟨"c1", "sub/t.py", "print(42)", 0⟩).2.map TarEntry.name =
      ["sub/t.py"] := by
  refine ⟨?_, by decide, by decide⟩
  intro h
  have : ("sub/t.py" : String) = specPathBase "sub/t.py" := by
    simpa [executePutArchive, buildTarStream] using h
  exact absurd this (by decide)

/-- A slash-free, non-empty path is its own base name. -/
theorem adde_specPathBase_no_slash (s : String) (hne : s ≠ "")
    (h : '/' ∉ s.data) : specPathBase s = s := by
  have hmem : ∀ c ∈ s.data, c ≠ '/' := by
    intro c hc hcq
    subst hcq
    exact h hc
  unfold specPathBase
  rw [if_neg hne]
  have hdrop : s.data.reverse.dropWhile (fun c => c = '/') = s.data.reverse := by
    apply adde_dropWhile_eq_self
    intro c hch
    have : c ∈ s.data.reverse := adde_mem_of_head _ _ hch
    have : c ∈ s.data := List.mem_reverse.mp this
    simpa using hmem c this
  rw [hdrop, List.reverse_reverse]
  have hne2 : s.data ≠ [] := by
    intro hh
    apply hne
    cases s with
    | mk l =>
      have hl : l = [] := hh
      subst hl
      rfl
  rw [if_neg hne2]
  have htake : s.data.reverse.takeWhile (fun c => c ≠ '/') = s.data.reverse := by
    apply adde_takeWhile_eq_self
    intro c hc
    have : c ∈ s.data := List.mem_reverse.mp hc
    simpa using hmem c this
  rw [htake, List.reverse_reverse]

/-- Claim C3, amended: every execute_code_block call put-archives into
/workspace a single-entry tar whose entry name is the supplied filename
verbatim (hence equal to its base name exactly when the filename is
slash-free), with mode 0644 and size the byte length of code_content. -/
theorem executePutArchive_entry_shape (p : ExecuteCodeBlockParams) :
    (executePutArchive p).1 = WorkspacePathInsideContainer ∧
    (executePutArchive p).2.length = 1 ∧
    (∀ e ∈ (executePutArchive p).2,
      e.name = p.filename ∧ e.mode = 0o644 ∧
      e.size = p.codeContent.utf8ByteSize ∧ e.data = p.codeContent) ∧
    (p.filename ≠ "" → '/' ∉ p.filename.data →
      ∀ e ∈ (executePutArchive p).2, e.name = specPathBase p.filename) := by
  refine ⟨rfl, rfl, ?_, ?_⟩
  · intro e he
    simp only [executePutArchive, buildTarStream, List.mem_singleton] at he
    subst he
    exact ⟨rfl, rfl, rfl, rfl⟩
  · intro hne hsl e he
    simp only [executePutArchive, buildTarStream, List.mem_singleton] at he
    subst he
    exact (adde_specPathBase_no_slash p.filename hne hsl).symm

/-- Witness for the amended C3 theorem at a concrete slash-free call. -/
theorem executePutArchive_entry_shape_witness :
    ({ name := "t.py", mode := 0o644, size := 9, data := "print(42)" } : TarEntry).name =
      specPathBase "t.py" :=
  (executePutArchive_entry_shape ⟨"c0", "t.py", "print(42)", 15⟩).2.2.2
    (by decide) (by decide) _ (by decide)

/-- Claim C9: execute_code_block selects the runner solely from the
case-insensitively lowered file extension: equal lowered extensions give
equal commands, .py runs python, .js and .mjs run node, .ts runs
npx --yes ts-node, .sh runs sh, and any other extension runs sh -c. -/
theorem runCommandForFile_table (fullPath f1 f2 : String) :
    (toLowerStr (pathExt f1) = toLowerStr (pathExt f2) →
      runCommandForFile fullPath f1 = runCommandForFile fullPath f2) ∧
    (toLowerStr (pathExt f1) = ".py" →
      runCommandForFile fullPath f1 = ["python", fullPath]) ∧
    (toLowerStr (pathExt f1) = ".js" →
      runCommandForFile fullPath f1 = ["node", fullPath]) ∧
    (toLowerStr (pathExt f1) = ".mjs" →
      runCommandForFile fullPath f1 = ["node", fullPath]) ∧
    (toLowerStr (pathExt f1) = ".ts" →
      runCommandForFile fullPath f1 = ["npx", "--yes", "ts-node", fullPath]) ∧
    (toLowerStr (pathExt f1) = ".sh" →
      runCommandForFile fullPath f1 = ["sh", fullPath]) ∧
    (toLowerStr (pathExt f1) ∉ ([".py", ".js", ".mjs", ".ts", ".sh"] : List String) →
      runCommandForFile fullPath f1 = ["sh", "-c", fullPath]) := by
  refine ⟨?_, ?_, ?_, ?_, ?_, ?_, ?_⟩
  · intro h
    simp only [runCommandForFile]
    rw [h]
  · intro h; simp [runCommandForFile, h]
  · intro h; simp [runCommandForFile, h]
  · intro h; simp [runCommandForFile, h]
  · intro h; simp [runCommandForFile, h]
  · intro h; simp [runCommandForFile, h]
  · intro h
    simp only [List.mem_cons, List.mem_singleton, not_or] at h
    obtain ⟨h1, h2, h3, h4, h5, _⟩ := h
    simp [runCommandForFile, h1, h2, h3, h4, h5]

/-- Witness for the C9 table at a concrete upper-case Python file. -/
theorem runCommandForFile_table_witness :
    runCommandForFile "/workspace/T.PY" "T.PY" = ["python", "/workspace/T.PY"] :=
  (runCommandForFile_table "/workspace/T.PY" "T.PY" "T.PY").2.1 (by decide)

/-- Claim C5: in every execute_code_block trace, the put-archive of the
source precedes the exec-start that runs it, the attach to the exec
stream precedes exec-start, and the last-run log is persisted only after
the exec-inspect that reads the exit code. -/
theorem executeCodeBlock_order (b : ExecBehavior) :
    evBefore (executeCodeBlockTrace b).1 .copyArchive .execStart ∧
    evBefore (executeCodeBlockTrace b).1 .execAttach .execStart ∧
    evBefore (executeCodeBlockTrace b).1 .execInspect .persistLog := by
  obtain ⟨t1, t2, t3, t4, t5, t6, t7⟩ := b
  cases t1 <;> cases t2 <;> cases t3 <;> cases t4 <;> cases t5 <;> cases t6 <;>
    cases t7 <;> decide

/-- Witness for C5 on the all-successful behaviour. -/
theorem executeCodeBlock_order_witness :
    DaemonEv.copyArchive ∈
      (executeCodeBlockTrace ⟨true, true, true, true, true, true, true⟩).1 ∧
    (executeCodeBlockTrace ⟨true, true, true, true, true, true, true⟩).1.indexOf
        DaemonEv.copyArchive <
      (executeCodeBlockTrace ⟨true, true, true, true, true, true, true⟩).1.indexOf
        DaemonEv.execStart :=
  (executeCodeBlock_order ⟨true, true, true, true, true, true, true⟩).1 (by decide)

/-- Claim C10, counterexample: nothing in ExecuteCodeBlock forbids the
caller from naming the source file `.adde_last_run.json`; the put-archive
then extracts exactly that entry into /workspace, overwriting the
previous log, and when the following exec-create fails (for instance the
container stopped after the copy) the operation returns an error with the
log already changed — refuting "never writes / left unchanged". -/
theorem executeCodeBlock_error_overwrites_log :
    (executeCodeBlockTrace ⟨true, true, false, true, true, true, true⟩).2 = false ∧
    lastRunAfter
        (executeCodeBlockTrace ⟨true, true, false, true, true, true, true⟩).1
        ".adde_last_run.json" "print(42)" (some "old") "new" = some "print(42)" ∧
    lastRunAfter
        (executeCodeBlockTrace ⟨true, true, false, true, true, true, true⟩).1
        ".adde_last_run.json" "print(42)" (some "old") "new" ≠ some "old" := by
  decide

/-- Claim C10, amended: when execute_code_block returns an error (tar
build, put-archive, or any exec step including inspect), the persist call
is never issued — persistence runs only after a successful exec — so the
last-run log keeps its previous content on every error return whose
supplied filename is not `.adde_last_run.json` itself; for that one
filename the put-archive step alone may have overwritten the log before
the failure. -/
theorem executeCodeBlock_error_frame (b : ExecBehavior)
    (filename content : String) (prev : Option String) (newLog : String)
    (h : (executeCodeBlockTrace b).2 = false) :
    DaemonEv.persistLog ∉ (executeCodeBlockTrace b).1 ∧
    (filename ≠ lastRunPath →
      lastRunAfter (executeCodeBlockTrace b).1 filename content prev newLog =
        prev) := by
  obtain ⟨t1, t2, t3, t4, t5, t6, t7⟩ := b
  cases t1 <;> cases t2 <;> cases t3 <;> cases t4 <;> cases t5 <;> cases t6 <;>
    cases t7 <;> first
    | exact absurd h (by decide)
    | exact ⟨by decide, fun hf => by
        simp [lastRunAfter, applyEvent, executeCodeBlockTrace, runExecTrace, hf]⟩

/-- Witness for the amended C10 on a failing stream read of an ordinary
source file with an existing log. -/
theorem executeCodeBlock_error_frame_witness :
    lastRunAfter
        (executeCodeBlockTrace ⟨true, true, true, true, true, false, true⟩).1
        "t.py" "print(42)" (some "old") "new" = some "old" :=
  (executeCodeBlock_error_frame ⟨true, true, true, true, true, false, true⟩
    "t.py" "print(42)" (some "old") "new" (by decide)).2 (by decide)

/-- Claim C6: on every successful create_runtime_env call, the returned
workspace is the absolute host path that the container-create request
bind-mounts at /workspace, the memory cap is 512 MiB, the CPU cap is
500 000 000 nano-CPUs, and the network mode is "none" unless network=true
(then "default"). -/
theorem createRuntimeEnv_success_invariants (p : CreateRuntimeEnvParams)
    (ws cid : String) (b : CreateBehavior) (habs : isAbsPath ws = true)
    (hok : (createRuntimeEnvRun p ws cid b).2.isError = false) :
    (createRuntimeEnvRun p ws cid b).2.workspace = some ws ∧
    (∀ w, (createRuntimeEnvRun p ws cid b).2.workspace = some w → isAbsPath w = true) ∧
    (createRuntimeEnvRun p ws cid b).2.containerId = some cid ∧
    CreateEv.containerCreate (containerSpecOf p ws) ∈ (createRuntimeEnvRun p ws cid b).1 ∧
    (containerSpecOf p ws).binds = [ws ++ ":" ++ WorkspacePathInsideContainer] ∧
    (containerSpecOf p ws).memory = 512 * 1024 * 1024 ∧
    (containerSpecOf p ws).nanoCPUs = 500000000 ∧
    (containerSpecOf p ws).networkMode = (if p.network then "default" else "none") := by
  obtain ⟨m, c, s, i⟩ := b
  cases m <;> cases c <;> cases s <;> cases i <;>
    by_cases hd : p.dependencies.isEmpty <;>
    simp_all [createRuntimeEnvRun, containerSpecOf, DefaultMemoryLimitBytes,
      DefaultNanoCPUs]

/-- Witness for C6 on a concrete successful call. -/
theorem createRuntimeEnv_success_invariants_witness :
    (createRuntimeEnvRun ⟨"busybox", [], [], false, [], false⟩ "/tmp/ws" "cid0"
        ⟨true, true, true, true⟩).2.workspace = some "/tmp/ws" :=
  (createRuntimeEnv_success_invariants ⟨"busybox", [], [], false, [], false⟩
    "/tmp/ws" "cid0" ⟨true, true, true, true⟩ (by decide) (by decide)).1

/-- Claim C7: once the container is created, create_runtime_env is atomic
on failure: a failed start, or a failed dependency install (which runs
with a 120-second timeout exactly when the dependency list is non-empty),
force-removes the container and returns an error carrying no
container_id and no workspace. -/
theorem createRuntimeEnv_atomic_on_failure (p : CreateRuntimeEnvParams)
    (ws cid : String) (b : CreateBehavior)
    (hm : b.mkdirOk = true) (hc : b.createOk = true) :
    (b.startOk = false →
      (createRuntimeEnvRun p ws cid b).1 =
        [.containerCreate (containerSpecOf p ws), .containerStart, .removeForce] ∧
      (createRuntimeEnvRun p ws cid b).2 = ⟨none, none, true⟩) ∧
    (b.startOk = true → p.dependencies ≠ [] → b.installOk = false →
      (createRuntimeEnvRun p ws cid b).1 =
        [.containerCreate (containerSpecOf p ws), .containerStart,
         .installExec (dependencyInstallCmd p.image p.dependencies) 120, .removeForce] ∧
      (createRuntimeEnvRun p ws cid b).2 = ⟨none, none, true⟩) := by
  obtain ⟨m, c, s, i⟩ := b
  simp only at hm hc
  subst hm
  subst hc
  constructor
  · intro hs
    simp only at hs
    subst hs
    simp [createRuntimeEnvRun]
  · intro hs hdep hi
    simp only at hs hi
    subst hs
    subst hi
    have hde : p.dependencies.isEmpty = false := by
      cases hdl : p.dependencies with
      | nil => exact absurd hdl hdep
      | cons a t => rfl
    simp [createRuntimeEnvRun, hde]

/-- Witness for C7 on a concrete failing dependency install. -/
theorem createRuntimeEnv_atomic_on_failure_witness :
    (createRuntimeEnvRun ⟨"busybox", ["requests"], [], false, [], false⟩ "/w" "c0"
        ⟨true, true, true, false⟩).2 = ⟨none, none, true⟩ :=
  ((createRuntimeEnv_atomic_on_failure ⟨"busybox", ["requests"], [], false, [], false⟩
      "/w" "c0" ⟨true, true, true, false⟩ rfl rfl).2 rfl (by decide) rfl).2

/-- Splitting never returns the empty list. -/
theorem adde_splitNl_ne_nil (s : List Char) : splitNl s ≠ [] := by
  induction s with
  | nil => simp [splitNl]
  | cons c t ih =>
    cases h : splitNl t with
    | nil => exact absurd h ih
    | cons a r =>
      simp only [splitNl, h]
      split <;> simp

/-- Pieces produced by `splitNl` contain no newline. -/
theorem adde_splitNl_no_nl (s : List Char) : ∀ l ∈ splitNl s, '\n' ∉ l := by
  induction s with
  | nil =>
    intro l hl
    simp [splitNl] at hl
    subst hl
    simp
  | cons c t ih =>
    intro l hl
    cases h : splitNl t with
    | nil => exact absurd h (adde_splitNl_ne_nil t)
    | cons a r =>
      simp only [splitNl, h] at hl
      by_cases hc : c = '\n'
      · rw [if_pos hc] at hl
        rcases List.mem_cons.mp hl with h1 | h1
        · subst h1; simp
        · exact ih l (by rw [h]; exact h1)
      · rw [if_neg hc] at hl
        rcases List.mem_cons.mp hl with h1 | h1
        · subst h1
          intro hmem
          rcases List.mem_cons.mp hmem with h2 | h2
          · exact hc h2.symm
          · exact ih a (by rw [h]; exact List.mem_cons_self _ _) h2
        · exact ih l (by rw [h]; exact List.mem_cons_of_mem a h1)

/-- Joining a head piece onto a non-empty tail inserts one newline. -/
theorem adde_joinNl_cons (x : List Char) (xs : List (List Char)) (hxs : xs ≠ []) :
    joinNl (x :: xs) = x ++ '\n' :: joinNl xs := by
  cases xs with
  | nil => exact absurd rfl hxs
  | cons y t => simp [joinNl, List.intersperse]

/-- Splitting after prepending a newline-free block extends the first
piece. -/
theorem adde_splitNl_append (s a : List Char) (r : List (List Char))
    (h : splitNl s = a :: r) :
    ∀ l : List Char, '\n' ∉ l → splitNl (l ++ s) = (l ++ a) :: r := by
  intro l
  induction l with
  | nil => intro _; simpa using h
  | cons c t ih =>
    intro hl
    have hc : c ≠ '\n' := fun hq => hl (by rw [hq]; exact List.mem_cons_self _ _)
    have ht : '\n' ∉ t := fun hm => hl (List.mem_cons_of_mem c hm)
    have h2 := ih ht
    rw [List.cons_append]
    simp only [splitNl, h2, if_neg hc]
    simp

/-- A newline-free block splits into itself. -/
theorem adde_splitNl_self (l : List Char) (hl : '\n' ∉ l) : splitNl l = [l] := by
  have h0 : splitNl ([] : List Char) = [] :: [] := rfl
  have h2 := adde_splitNl_append [] [] [] h0 l hl
  simpa using h2

/-- Splitting is a left inverse of joining on non-empty lists of
newline-free pieces. -/
theorem adde_splitNl_joinNl (xs : List (List Char)) :
    xs ≠ [] → (∀ l ∈ xs, '\n' ∉ l) → splitNl (joinNl xs) = xs := by
  induction xs with
  | nil => intro h _; exact absurd rfl h
  | cons x t ih =>
    intro _ hnl
    cases t with
    | nil =>
      have hj : joinNl [x] = x := by simp [joinNl, List.intersperse]
      rw [hj]
      exact adde_splitNl_self x (hnl x (List.mem_cons_self _ _))
    | cons y t2 =>
      have hx : '\n' ∉ x := hnl x (List.mem_cons_self _ _)
      have hrest : ∀ l ∈ y :: t2, '\n' ∉ l := fun l hl =>
        hnl l (List.mem_cons_of_mem x hl)
      have hjoin : joinNl (x :: y :: t2) = x ++ '\n' :: joinNl (y :: t2) :=
        adde_joinNl_cons x (y :: t2) (by simp)
      have hih := ih (by simp) hrest
      cases hq : splitNl (joinNl (y :: t2)) with
      | nil => exact absurd hq (adde_splitNl_ne_nil _)
      | cons a r =>
        have h2 : splitNl ('\n' :: joinNl (y :: t2)) = [] :: a :: r := by
          simp [splitNl, hq]
        have h3 := adde_splitNl_append ('\n' :: joinNl (y :: t2)) [] (a :: r) h2 x hx
        rw [hjoin, h3]
        have h4 : a :: r = y :: t2 := by rw [← hq, hih]
        rw [h4]
        simp

/-- Claim C8: for tail_lines N greater than 0, a log text with at most N
newline-separated lines is returned unchanged, otherwise exactly the last
N lines joined by newline are returned; the result always has at most N
lines, and tail_lines 0 leaves the log untouched. -/
theorem tailLines_spec (s : List Char) (n : Nat) (log : LogEntry) (hn : 0 < n) :
    ((splitNl s).length ≤ n → tailLines s n = s) ∧
    (n < (splitNl s).length →
      splitNl (tailLines s n) = (splitNl s).drop ((splitNl s).length - n) ∧
      (splitNl (tailLines s n)).length = n) ∧
    (splitNl (tailLines s n)).length ≤ n ∧
    trimLogs log 0 = log := by
  have htrim : trimLogs log 0 = log := by
    unfold trimLogs
    rw [if_neg (by decide)]
  by_cases hle : (splitNl s).length ≤ n
  · have ht : tailLines s n = s := by unfold tailLines; rw [if_pos hle]
    refine ⟨fun _ => ht, fun hlt => absurd hlt (by omega), ?_, htrim⟩
    rw [ht]
    exact hle
  · have hlt : n < (splitNl s).length := by omega
    have hxs : splitNl (joinNl ((splitNl s).drop ((splitNl s).length - n))) =
        (splitNl s).drop ((splitNl s).length - n) := by
      apply adde_splitNl_joinNl
      · intro hmt
        have hh := congrArg List.length hmt
        rw [List.length_drop] at hh
        simp at hh
        omega
      · intro l hl
        exact adde_splitNl_no_nl s l (List.drop_subset _ _ hl)
    have ht : tailLines s n =
        joinNl ((splitNl s).drop ((splitNl s).length - n)) := by
      unfold tailLines
      rw [if_neg hle]
    refine ⟨fun hle2 => absurd hle2 hle, fun _ => ⟨?_, ?_⟩, ?_, htrim⟩
    · rw [ht, hxs]
    · rw [ht, hxs, List.length_drop]; omega
    · rw [ht, hxs, List.length_drop]; omega

/-- Witness for C8 at a three-line log trimmed to its last two lines. -/
theorem tailLines_spec_witness :
    splitNl (tailLines "a\nb\nc".data 2) =
      (splitNl "a\nb\nc".data).drop ((splitNl "a\nb\nc".data).length - 2) :=
  ((tailLines_spec "a\nb\nc".data 2 ⟨0, [], [], "0.00s"⟩ (by decide)).2.1
    (by decide)).1

/-- The head of a trimmed string is not whitespace. -/
theorem adde_trimSpace_head (x : List Char) :
    ∀ c, (trimSpace x).head? = some c → isGoTrimSpace c = false := by
  intro c hc
  obtain ⟨t, htp⟩ := adde_dropWhile_suffix isGoTrimSpace (trimLeftChars x).reverse
  have hpre : trimLeftChars x = trimSpace x ++ t.reverse := by
    unfold trimSpace trimRightChars
    calc trimLeftChars x = (trimLeftChars x).reverse.reverse := by
          rw [List.reverse_reverse]
      _ = (t ++ (trimLeftChars x).reverse.dropWhile isGoTrimSpace).reverse := by
          rw [← htp]
      _ = ((trimLeftChars x).reverse.dropWhile isGoTrimSpace).reverse ++ t.reverse := by
          rw [List.reverse_append]
  have hne : trimSpace x ≠ [] := by
    intro hq
    rw [hq] at hc
    simp at hc
  have hhead : (trimLeftChars x).head? = (trimSpace x).head? := by
    rw [hpre]
    exact adde_head_append _ _ hne
  have hx : (trimLeftChars x).head? = some c := by rw [hhead, hc]
  exact adde_head_dropWhile isGoTrimSpace x c hx

/-- The last character of a trimmed string is not whitespace. -/
theorem adde_trimSpace_last (x : List Char) :
    ∀ c, (trimSpace x).reverse.head? = some c → isGoTrimSpace c = false := by
  intro c hc
  have hrev : (trimSpace x).reverse =
      (trimLeftChars x).reverse.dropWhile isGoTrimSpace := by
    unfold trimSpace trimRightChars
    rw [List.reverse_reverse]
  rw [hrev] at hc
  exact adde_head_dropWhile _ _ c hc

/-- A string whose two ends carry no whitespace is unchanged by trimming. -/
theorem adde_trimSpace_eq_self (u : List Char)
    (h1 : ∀ c, u.head? = some c → isGoTrimSpace c = false)
    (h2 : ∀ c, u.reverse.head? = some c → isGoTrimSpace c = false) :
    trimSpace u = u := by
  have hleft : trimLeftChars u = u := adde_dropWhile_eq_self _ _ h1
  unfold trimSpace
  rw [hleft]
  unfold trimRightChars
  rw [adde_dropWhile_eq_self _ _ h2, List.reverse_reverse]

/-- Trimming is idempotent. -/
theorem adde_trimSpace_idem (x : List Char) :
    trimSpace (trimSpace x) = trimSpace x :=
  adde_trimSpace_eq_self _ (adde_trimSpace_head x) (adde_trimSpace_last x)

/-- A fully non-whitespace string is unchanged by trimming. -/
theorem adde_trimSpace_all (u : List Char)
    (h : ∀ c ∈ u, isGoTrimSpace c = false) : trimSpace u = u :=
  adde_trimSpace_eq_self u
    (fun c hc => h c (adde_mem_of_head _ _ hc))
    (fun c hc => h c (List.mem_reverse.mp (adde_mem_of_head _ _ hc)))

/-- Decimal digit characters are never whitespace. -/
theorem adde_digitChar_not_space (n : Nat) : isGoTrimSpace (digitChar n) = false := by
  unfold digitChar
  repeat' split
  all_goals decide

/-- No character of a rendered natural number is whitespace. -/
theorem adde_digitsAux_not_space (fuel : Nat) :
    ∀ n c, c ∈ digitsAux fuel n → isGoTrimSpace c = false := by
  induction fuel with
  | zero =>
    intro n c h
    simp [digitsAux] at h
  | succ f ih =>
    intro n c h
    unfold digitsAux at h
    split at h
    · simp at h
      subst h
      exact adde_digitChar_not_space n
    · rcases List.mem_append.mp h with h1 | h1
      · exact ih _ _ h1
      · simp at h1
        subst h1
        exact adde_digitChar_not_space _

/-- No character of `natChars n` is whitespace. -/
theorem adde_natChars_not_space (n : Nat) :
    ∀ c ∈ natChars n, isGoTrimSpace c = false := fun c hc =>
  adde_digitsAux_not_space (n + 1) n c hc

/-- The convention step always yields a tag carrying the marker. -/
theorem adde_enforce_keeps_marker (u : List Char) :
    agentEnvPrefixChars.isPrefixOf (enforceTagConvention u) = true := by
  unfold enforceTagConvention
  split
  · assumption
  · exact adde_isPrefixOf_append _ _

/-- The convention step keeps a tag already carrying the marker. -/
theorem adde_enforce_of_marker (v : List Char)
    (h : agentEnvPrefixChars.isPrefixOf v = true) :
    enforceTagConvention v = v := by
  unfold enforceTagConvention
  rw [if_pos h]

/-- The convention step never empties a non-empty tag. -/
theorem adde_enforce_ne_nil (u : List Char) (hu : u ≠ []) :
    enforceTagConvention u ≠ [] := by
  unfold enforceTagConvention
  split
  · exact hu
  · intro h
    rcases List.append_eq_nil.mp h with ⟨h1, _⟩
    exact absurd h1 (by decide)

/-- The convention step preserves trimmed-ness of a non-empty tag. -/
theorem adde_enforce_trimmed (u : List Char) (hu : u ≠ [])
    (ht : trimSpace u = u) :
    trimSpace (enforceTagConvention u) = enforceTagConvention u := by
  unfold enforceTagConvention
  split
  · exact ht
  · apply adde_trimSpace_eq_self
    · intro c hc
      rw [adde_head_append _ _ (by decide : agentEnvPrefixChars ≠ [])] at hc
      have hhd : agentEnvPrefixChars.head? = some 'a' := rfl
      rw [hhd] at hc
      have hca : 'a' = c := Option.some.inj hc
      rw [← hca]
      decide
    · intro c hc
      rw [List.reverse_append] at hc
      have hrne : u.reverse ≠ [] := by
        simpa [List.reverse_eq_nil_iff] using hu
      rw [adde_head_append _ _ hrne] at hc
      have hc2 : (trimSpace u).reverse.head? = some c := by
        rw [ht]
        exact hc
      exact adde_trimSpace_last u c hc2

/-- The synthesize-if-empty step always yields a trimmed, non-empty tag. -/
theorem adde_synth_trimmed (tag : List Char) (n : Nat) :
    trimSpace (synthIfEmpty (trimSpace tag) n) = synthIfEmpty (trimSpace tag) n ∧
    synthIfEmpty (trimSpace tag) n ≠ [] := by
  unfold synthIfEmpty
  split
  · constructor
    · apply adde_trimSpace_all
      intro c hc
      have hlit : ∀ c ∈ "agent-env:build-".data, isGoTrimSpace c = false := by decide
      rcases List.mem_append.mp hc with h1 | h1
      · exact hlit c h1
      · exact adde_natChars_not_space n c h1
    · intro h
      rcases List.append_eq_nil.mp h with ⟨h1, _⟩
      exact absurd h1 (by decide)
  · next hne =>
    exact ⟨adde_trimSpace_idem tag, hne⟩

/-- A second resolution of a convention-step output is the identity. -/
theorem adde_enforce_idem (u : List Char) (m : Nat) (hu : u ≠ [])
    (ht : trimSpace u = u) :
    resolveBuildTag (enforceTagConvention u) m = enforceTagConvention u := by
  have h1 : trimSpace (enforceTagConvention u) = enforceTagConvention u :=
    adde_enforce_trimmed u hu ht
  have h2 : enforceTagConvention u ≠ [] := adde_enforce_ne_nil u hu
  have h3 : agentEnvPrefixChars.isPrefixOf (enforceTagConvention u) = true :=
    adde_enforce_keeps_marker u
  show enforceTagConvention
      (synthIfEmpty (trimSpace (enforceTagConvention u)) m) = _
  rw [h1]
  have h4 : synthIfEmpty (enforceTagConvention u) m = enforceTagConvention u := by
    unfold synthIfEmpty
    rw [if_neg h2]
  rw [h4]
  exact adde_enforce_of_marker _ h3

/-- Claim C4: build_image_from_context tag normalization: the input is
trimmed; an empty trimmed tag becomes agent-env:build-(unix seconds); a
trimmed tag missing the agent-env: marker gets it prepended, one already
carrying it is kept; every resolved tag starts with agent-env:, and
resolving a resolved tag again (at any later time) returns it unchanged. -/
theorem resolveBuildTag_spec (tag : List Char) (n m : Nat) :
    agentEnvPrefixChars.isPrefixOf (resolveBuildTag tag n) = true ∧
    (trimSpace tag = [] →
      resolveBuildTag tag n = "agent-env:build-".data ++ natChars n) ∧
    (trimSpace tag ≠ [] → agentEnvPrefixChars.isPrefixOf (trimSpace tag) = false →
      resolveBuildTag tag n = agentEnvPrefixChars ++ trimSpace tag) ∧
    (trimSpace tag ≠ [] → agentEnvPrefixChars.isPrefixOf (trimSpace tag) = true →
      resolveBuildTag tag n = trimSpace tag) ∧
    resolveBuildTag (resolveBuildTag tag n) m = resolveBuildTag tag n := by
  obtain ⟨hts, hne⟩ := adde_synth_trimmed tag n
  refine ⟨adde_enforce_keeps_marker _, ?_, ?_, ?_, adde_enforce_idem _ m hne hts⟩
  · intro hE
    show enforceTagConvention (synthIfEmpty (trimSpace tag) n) = _
    rw [hE]
    have h4 : synthIfEmpty ([] : List Char) n =
        "agent-env:build-".data ++ natChars n := by
      unfold synthIfEmpty
      rw [if_pos rfl]
    rw [h4]
    apply adde_enforce_of_marker
    have hsplit : "agent-env:build-".data = agentEnvPrefixChars ++ "build-".data := by
      decide
    rw [hsplit, List.append_assoc]
    exact adde_isPrefixOf_append _ _
  · intro hNE hpf
    show enforceTagConvention (synthIfEmpty (trimSpace tag) n) = _
    have h4 : synthIfEmpty (trimSpace tag) n = trimSpace tag := by
      unfold synthIfEmpty
      rw [if_neg hNE]
    rw [h4]
    unfold enforceTagConvention
    rw [if_neg (by simp [hpf])]
  · intro hNE hpf
    show enforceTagConvention (synthIfEmpty (trimSpace tag) n) = _
    have h4 : synthIfEmpty (trimSpace tag) n = trimSpace tag := by
      unfold synthIfEmpty
      rw [if_neg hNE]
    rw [h4]
    exact adde_enforce_of_marker _ hpf

/-- Witness for C4 at a padded tag missing the marker. -/
theorem resolveBuildTag_spec_witness :
    resolveBuildTag "  myimg ".data 5 =
      agentEnvPrefixChars ++ trimSpace "  myimg ".data :=
  (resolveBuildTag_spec "  myimg ".data 5 7).2.2.1 (by decide) (by decide)
